import Mathlib

/-!
Verification development for the deployment-document synthesis core and the
`AwsAuth` helper construct.

The `AwsAuth` part is translated from
`packages/aws-cdk-lib/aws-eks/lib/aws-auth.ts`.  The synthesis core
(deferred-value engine, dependency graph / scope broker, topological unit
ordering, document emission) is not shipped in this excerpt of the
repository, so those components are modelled from the specification text;
each such definition is marked `Modelled from the spec:`.
-/

namespace Spec2Proof

/- ### Part 1: the `AwsAuth` construct, translated from
`packages/aws-cdk-lib/aws-eks/lib/aws-auth.ts`. -/

/-- Authentication modes of an EKS cluster, from `cluster.ts` as used by
`aws-auth.ts` (API, API_AND_CONFIG_MAP, CONFIG_MAP). -/
inductive AuthenticationMode where
  | API
  | API_AND_CONFIG_MAP
  | CONFIG_MAP
deriving Repr, DecidableEq

/-- Cluster as consumed by `AwsAuth`: only its `authenticationMode`
(optional in the source) is read by the constructor. -/
structure Cluster where
  authenticationMode : Option AuthenticationMode
deriving Repr, DecidableEq

/-- Stack identity: TypeScript compares stacks by object reference
(`Stack.of(construct) !== thisStack`), modelled by a numeric identity,
alongside the `stackName` used in the error message. -/
structure Stack where
  stackId : Nat
  stackName : String
deriving Repr, DecidableEq

/-- Reference to a construct: its node path and the stack it belongs to
(`Stack.of(construct)`). -/
structure ConstructRef where
  path : String
  stack : Stack
deriving Repr, DecidableEq

/-- Validation error: carries the message and the path of the scope
construct passed as second argument to `new ValidationError(msg, this)`. -/
structure ValidationError where
  message : String
  scopePath : String
deriving Repr, DecidableEq

/-- Mapping to a Kubernetes user name and groups (`AwsAuthMapping`). -/
structure AwsAuthMapping where
  username : Option String
  groups : List String
deriving Repr, DecidableEq

/-- IAM role as consumed by `AwsAuth`: its `roleArn` and its construct node. -/
structure IRole where
  roleArn : String
  node : ConstructRef
deriving Repr, DecidableEq

/-- IAM user as consumed by `AwsAuth`: its `userArn` and its construct node. -/
structure IUser where
  userArn : String
  node : ConstructRef
deriving Repr, DecidableEq

/-- State of an `AwsAuth` construct: its own node, its stack
(`this.stack = Stack.of(this)`), and the three accumulator arrays. -/
structure AwsAuth where
  selfNode : ConstructRef
  stack : Stack
  roleMappings : List (IRole × AwsAuthMapping)
  userMappings : List (IUser × AwsAuthMapping)
  accounts : List String
deriving Repr, DecidableEq

/-- Shape of the `KubernetesManifest` created by the `AwsAuth` constructor:
an aws-auth ConfigMap in namespace kube-system, with `overwrite: true`. -/
structure KubernetesManifestModel where
  overwrite : Bool
  apiVersion : String
  kind : String
  metadataName : String
  metadataNamespace : String
deriving Repr, DecidableEq

/-- Result of a successful `AwsAuth` construction: the construct state and
the manifest it created. -/
structure AwsAuthConstructed where
  auth : AwsAuth
  manifest : KubernetesManifestModel
deriving Repr, DecidableEq

/-- Translation of
`const supportConfigMap = props.cluster.authenticationMode !== AuthenticationMode.API ? true : false`. -/
def supportConfigMap (cluster : Cluster) : Bool :=
  if cluster.authenticationMode ≠ some AuthenticationMode.API then true else false

/-- The aws-auth ConfigMap manifest created by the constructor. -/
def awsAuthManifest : KubernetesManifestModel :=
  { overwrite := true
    apiVersion := "v1"
    kind := "ConfigMap"
    metadataName := "aws-auth"
    metadataNamespace := "kube-system" }

/-- Initial `AwsAuth` state: empty mapping arrays, stack taken from the
construct's own node (`Stack.of(this)`). -/
def awsAuthInitialState (selfNode : ConstructRef) : AwsAuth :=
  { selfNode := selfNode
    stack := selfNode.stack
    roleMappings := []
    userMappings := []
    accounts := [] }

/-- The `AwsAuth` constructor: throws `ValidationError` when the ConfigMap
is not supported (authenticationMode = API), otherwise creates the
aws-auth ConfigMap manifest and the empty mapping state. -/
def AwsAuth.construct (selfNode : ConstructRef) (cluster : Cluster) :
    Except ValidationError AwsAuthConstructed :=
  if !supportConfigMap cluster then
    .error { message := "ConfigMap not supported in the AuthenticationMode"
             scopePath := selfNode.path }
  else
    .ok { auth := awsAuthInitialState selfNode
          manifest := awsAuthManifest }

/-- Translation of `AwsAuth.assertSameStack`: errors when the construct's
stack differs (by identity) from this construct's stack; the message names
the construct's node path and this stack's name. -/
def AwsAuth.assertSameStack (self : AwsAuth) (construct : ConstructRef) :
    Option ValidationError :=
  if construct.stack.stackId ≠ self.stack.stackId then
    some { message := construct.path ++ " should be defined in the scope of the "
             ++ self.stack.stackName ++ " stack to prevent circular dependencies"
           scopePath := self.selfNode.path }
  else
    none

/-- Translation of `AwsAuth.addRoleMapping`: asserts the role lives in the
same stack, then pushes the pair onto `roleMappings`. -/
def AwsAuth.addRoleMapping (self : AwsAuth) (role : IRole) (mapping : AwsAuthMapping) :
    Except ValidationError AwsAuth :=
  match self.assertSameStack role.node with
  | some e => .error e
  | none => .ok { self with roleMappings := self.roleMappings ++ [(role, mapping)] }

/-- Translation of `AwsAuth.addMastersRole`: adds a role mapping to the
`system:masters` group with the optional username. -/
def AwsAuth.addMastersRole (self : AwsAuth) (role : IRole) (username : Option String) :
    Except ValidationError AwsAuth :=
  self.addRoleMapping role { username := username, groups := ["system:masters"] }

/-- One entry of the array built by `synthesizeMapRoles` before JSON
serialization. -/
structure MapRoleEntry where
  rolearn : String
  username : String
  groups : List String
deriving Repr, DecidableEq

/-- Translation of the producer inside `AwsAuth.synthesizeMapRoles`: maps
each role mapping to `{rolearn, username ?? roleArn, groups}` (the array
handed to `toJsonString`). -/
def AwsAuth.synthesizeMapRolesList (self : AwsAuth) : List MapRoleEntry :=
  self.roleMappings.map fun m =>
    { rolearn := m.1.roleArn
      username := m.2.username.getD m.1.roleArn
      groups := m.2.groups }

/- ### Part 2: dependency graph and scope broker.

Modelled from the spec: the core dependency graph / scope broker is not part
of this source excerpt (only its callers are), so `addDependency`,
`assertSameUnit` and the export registry follow the specification's
contract in section 4.2. -/

/-- Modelled from the spec: a node as seen by the scope broker — a unique
path and the deployment unit it belongs to. -/
structure BrokerNode where
  path : String
  unitId : Nat
deriving Repr, DecidableEq

/-- Modelled from the spec: ScopeViolationError carries both node paths. -/
structure ScopeViolationError where
  pathA : String
  pathB : String
deriving Repr, DecidableEq

/-- Modelled from the spec: errors raised by `addDependency` — a rejected
self-edge, or a scope violation for a cross-unit edge without an export. -/
inductive DependencyErr where
  | selfEdge (path : String)
  | scopeViolation (e : ScopeViolationError)
deriving Repr, DecidableEq

/-- Modelled from the spec: broker state — unit-level exports recorded by
`exportReference` (producer unit, consumer unit) and the accumulated
node-level ordering edges. -/
structure ScopeBroker where
  exports : List (Nat × Nat)
  edges : List (BrokerNode × BrokerNode)
deriving Repr, DecidableEq

/-- Modelled from the spec: whether a prior export exists between the two
units, in either direction. -/
def ScopeBroker.hasExportBetween (br : ScopeBroker) (u v : Nat) : Bool :=
  br.exports.any fun e => (e.1 == u && e.2 == v) || (e.1 == v && e.2 == u)

/-- Modelled from the spec: `addDependency(a, b)` records that `a`'s
emission must follow `b`'s; rejects self-edges; raises ScopeViolationError
carrying both paths when the nodes live in different units with no prior
export. -/
def ScopeBroker.addDependency (br : ScopeBroker) (a b : BrokerNode) :
    Except DependencyErr ScopeBroker :=
  if a.path = b.path then
    .error (.selfEdge a.path)
  else if a.unitId ≠ b.unitId ∧ ¬ br.hasExportBetween a.unitId b.unitId then
    .error (.scopeViolation { pathA := a.path, pathB := b.path })
  else
    .ok { br with edges := br.edges ++ [(a, b)] }

/-- Modelled from the spec: `assertSameUnit(a, b)` — explicit guard with the
same rejection rule as `addDependency` for cross-unit references. -/
def ScopeBroker.assertSameUnit (br : ScopeBroker) (a b : BrokerNode) :
    Except ScopeViolationError Unit :=
  if a.unitId ≠ b.unitId ∧ ¬ br.hasExportBetween a.unitId b.unitId then
    .error { pathA := a.path, pathB := b.path }
  else
    .ok ()

/- ### Part 3: deferred-value engine.

Modelled from the spec: the deferred-value engine (`createDeferred`,
`resolve`, memoization, recursive structural resolution, ProducerError) is
not part of this source excerpt; the definitions follow the specification's
contract in section 4.1. -/

/-- Modelled from the spec: a synthesis-time value — a literal string, a
deferred-value handle identifier, a sequence, or a mapping. -/
inductive Val where
  | str : String → Val
  | handle : Nat → Val
  | list : List Val → Val
  | vmap : List (String × Val) → Val
deriving Repr

/-- Modelled from the spec: a producer callback — the path of the node that
registered it, and the outcome of invoking it (a value, or a raised error
message). -/
structure Producer where
  nodePath : String
  result : Except String Val
deriving Repr

/-- Modelled from the spec: engine state — registered producers by handle
identifier, the memo cache, and a log of producer invocations. -/
structure EngineState where
  producers : Nat → Option Producer
  cache : Nat → Option Val
  invoked : List Nat

/-- Modelled from the spec: errors of the resolution engine. -/
inductive ResolveErr where
  | cyclic
  | unknownHandle (id : Nat)
  | producer (path : String) (msg : String)
deriving Repr, DecidableEq

/-- Cache update after memoizing handle `id` to value `v`. -/
def cacheInsert (c : Nat → Option Val) (id : Nat) (v : Val) : Nat → Option Val :=
  fun k => if k = id then some v else c k

mutual

/-- Modelled from the spec: `resolve(handle, context)` plus recursive
depth-first structural resolution.  A cached handle returns its memoized
value; an uncached handle invokes its producer (recorded in the invocation
log), recursively resolves the produced value, and memoizes the result.
`fuel` bounds the producer-invocation depth; exhausting it means the
resolution is cyclic. -/
def resolveVal (fuel : Nat) (st : EngineState) : Val → Except ResolveErr (Val × EngineState)
  | .str s => .ok (.str s, st)
  | .list xs =>
    match resolveValList fuel st xs with
    | .error e => .error e
    | .ok (ys, st') => .ok (.list ys, st')
  | .vmap fs =>
    match resolveValFields fuel st fs with
    | .error e => .error e
    | .ok (gs, st') => .ok (.vmap gs, st')
  | .handle id =>
    match st.cache id with
    | some v => .ok (v, st)
    | none =>
      match st.producers id with
      | none => .error (.unknownHandle id)
      | some p =>
        match fuel with
        | 0 => .error .cyclic
        | fuel' + 1 =>
          let st1 : EngineState := { st with invoked := st.invoked ++ [id] }
          match p.result with
          | .error msg => .error (.producer p.nodePath msg)
          | .ok pv =>
            match resolveVal fuel' st1 pv with
            | .error e => .error e
            | .ok (rv, st2) =>
              .ok (rv, { st2 with cache := cacheInsert st2.cache id rv })
termination_by v => (fuel, sizeOf v)

/-- Depth-first resolution of the elements of a sequence, left to right. -/
def resolveValList (fuel : Nat) (st : EngineState) :
    List Val → Except ResolveErr (List Val × EngineState)
  | [] => .ok ([], st)
  | x :: xs =>
    match resolveVal fuel st x with
    | .error e => .error e
    | .ok (y, st') =>
      match resolveValList fuel st' xs with
      | .error e => .error e
      | .ok (ys, st'') => .ok (y :: ys, st'')
termination_by xs => (fuel, sizeOf xs)

/-- Depth-first resolution of the entries of a mapping, left to right. -/
def resolveValFields (fuel : Nat) (st : EngineState) :
    List (String × Val) → Except ResolveErr (List (String × Val) × EngineState)
  | [] => .ok ([], st)
  | (k, v) :: fs =>
    match resolveVal fuel st v with
    | .error e => .error e
    | .ok (y, st') =>
      match resolveValFields fuel st' fs with
      | .error e => .error e
      | .ok (gs, st'') => .ok ((k, y) :: gs, st'')
termination_by fs => (fuel, sizeOf fs)

end

mutual

/-- Whether a value still contains a deferred-value handle identifier. -/
def containsHandle : Val → Bool
  | .str _ => false
  | .handle _ => true
  | .list xs => containsHandleList xs
  | .vmap fs => containsHandleFields fs

/-- Whether any element of a sequence contains a handle. -/
def containsHandleList : List Val → Bool
  | [] => false
  | x :: xs => containsHandle x || containsHandleList xs

/-- Whether any entry of a mapping contains a handle. -/
def containsHandleFields : List (String × Val) → Bool
  | [] => false
  | (_, v) :: fs => containsHandle v || containsHandleFields fs

end

mutual

/-- Structure-preserving substitution: replaces every handle identifier by
the value `res` assigns to it, leaving literals and the nesting structure
unchanged. -/
def substVal (res : Nat → Val) : Val → Val
  | .str s => .str s
  | .handle id => res id
  | .list xs => .list (substValList res xs)
  | .vmap fs => .vmap (substValFields res fs)

/-- Substitution on the elements of a sequence. -/
def substValList (res : Nat → Val) : List Val → List Val
  | [] => []
  | x :: xs => substVal res x :: substValList res xs

/-- Substitution on the entries of a mapping. -/
def substValFields (res : Nat → Val) : List (String × Val) → List (String × Val)
  | [] => []
  | (k, v) :: fs => (k, substVal res v) :: substValFields res fs

end

mutual

/-- Handle identifiers embedded in a value. -/
def handleIds : Val → List Nat
  | .str _ => []
  | .handle id => [id]
  | .list xs => handleIdsList xs
  | .vmap fs => handleIdsFields fs

/-- Handle identifiers embedded in the elements of a sequence. -/
def handleIdsList : List Val → List Nat
  | [] => []
  | x :: xs => handleIds x ++ handleIdsList xs

/-- Handle identifiers embedded in the entries of a mapping. -/
def handleIdsFields : List (String × Val) → List Nat
  | [] => []
  | (_, v) :: fs => handleIds v ++ handleIdsFields fs

end

mutual

/-- Resolving a value that contains no handles returns the value itself and
leaves the engine state untouched, for any fuel. -/
theorem resolveVal_handleFree (fuel : Nat) (st : EngineState) :
    ∀ v : Val, containsHandle v = false → resolveVal fuel st v = .ok (v, st)
  | .str s, _ => by simp [resolveVal]
  | .handle id, h => by simp [containsHandle] at h
  | .list xs, h => by
    rw [resolveVal]
    rw [resolveValList_handleFree fuel st xs (by simpa [containsHandle] using h)]
  | .vmap fs, h => by
    rw [resolveVal]
    rw [resolveValFields_handleFree fuel st fs (by simpa [containsHandle] using h)]

/-- Sequence version of `resolveVal_handleFree`. -/
theorem resolveValList_handleFree (fuel : Nat) (st : EngineState) :
    ∀ xs : List Val, containsHandleList xs = false →
      resolveValList fuel st xs = .ok (xs, st)
  | [], _ => by simp [resolveValList]
  | x :: xs, h => by
    have hx : containsHandle x = false := by
      simp [containsHandleList] at h
      exact h.1
    have hxs : containsHandleList xs = false := by
      simp [containsHandleList] at h
      exact h.2
    rw [resolveValList]
    simp [resolveVal_handleFree fuel st x hx,
      resolveValList_handleFree fuel st xs hxs]

/-- Mapping version of `resolveVal_handleFree`. -/
theorem resolveValFields_handleFree (fuel : Nat) (st : EngineState) :
    ∀ fs : List (String × Val), containsHandleFields fs = false →
      resolveValFields fuel st fs = .ok (fs, st)
  | [], _ => by simp [resolveValFields]
  | (k, v) :: fs, h => by
    have hv : containsHandle v = false := by
      simp [containsHandleFields] at h
      exact h.1
    have hfs : containsHandleFields fs = false := by
      simp [containsHandleFields] at h
      exact h.2
    rw [resolveValFields]
    simp [resolveVal_handleFree fuel st v hv,
      resolveValFields_handleFree fuel st fs hfs]

end

/-- Engine state after the first resolution of handle `id` to value `v`:
the result is memoized and the producer invocation is logged. -/
def resolvedState (st : EngineState) (id : Nat) (v : Val) : EngineState :=
  { st with cache := cacheInsert st.cache id v, invoked := st.invoked ++ [id] }

/-- The memo cache only holds results the assignment `res` prescribes. -/
def cacheAgrees (st : EngineState) (res : Nat → Val) : Prop :=
  ∀ id w, st.cache id = some w → w = res id

/-- Every handle in `ids` has a registered producer whose invocation yields
the handle-free value `res` assigns to it. -/
def producersResolveTo (st : EngineState) (res : Nat → Val) (ids : List Nat) : Prop :=
  ∀ id ∈ ids, ∃ p, st.producers id = some p ∧ p.result = .ok (res id) ∧
    containsHandle (res id) = false

mutual

/-- Depth-first resolution computes exactly the structure-preserving
substitution of producer results for handles, keeps the cache consistent,
and does not change the producer registry. -/
theorem resolveVal_subst (fuel : Nat) (res : Nat → Val) :
    ∀ (v : Val) (st : EngineState),
      cacheAgrees st res →
      producersResolveTo st res (handleIds v) →
      ∃ st', resolveVal (fuel + 1) st v = .ok (substVal res v, st') ∧
        cacheAgrees st' res ∧ st'.producers = st.producers
  | .str s, st, hca, _ => ⟨st, by rw [resolveVal]; rfl, hca, rfl⟩
  | .handle id, st, hca, hpr => by
    obtain ⟨p, hp, hpres, hpf⟩ := hpr id (by simp [handleIds])
    cases hcache : st.cache id with
    | some w =>
      refine ⟨st, ?_, hca, rfl⟩
      rw [resolveVal]
      simp [hcache, substVal, hca id w hcache]
    | none =>
      refine ⟨{ st with invoked := st.invoked ++ [id], cache := cacheInsert st.cache id (res id) }, ?_, ?_, rfl⟩
      · rw [resolveVal]
        simp [hcache, hp, hpres]
        rw [resolveVal_handleFree fuel { st with invoked := st.invoked ++ [id] } (res id) hpf]
        simp [substVal]
      · intro k w hk
        by_cases hkid : k = id
        · subst hkid
          simp [cacheInsert] at hk
          exact hk.symm
        · simp [cacheInsert, hkid] at hk
          exact hca k w hk
  | .list xs, st, hca, hpr => by
    obtain ⟨st', h1, h2, h3⟩ := resolveValList_subst fuel res xs st hca
      (by simpa [handleIds] using hpr)
    refine ⟨st', ?_, h2, h3⟩
    rw [resolveVal]
    simp [h1, substVal]
  | .vmap fs, st, hca, hpr => by
    obtain ⟨st', h1, h2, h3⟩ := resolveValFields_subst fuel res fs st hca
      (by simpa [handleIds] using hpr)
    refine ⟨st', ?_, h2, h3⟩
    rw [resolveVal]
    simp [h1, substVal]

/-- Sequence version of `resolveVal_subst`. -/
theorem resolveValList_subst (fuel : Nat) (res : Nat → Val) :
    ∀ (xs : List Val) (st : EngineState),
      cacheAgrees st res →
      producersResolveTo st res (handleIdsList xs) →
      ∃ st', resolveValList (fuel + 1) st xs = .ok (substValList res xs, st') ∧
        cacheAgrees st' res ∧ st'.producers = st.producers
  | [], st, hca, _ => ⟨st, by rw [resolveValList]; rfl, hca, rfl⟩
  | x :: xs, st, hca, hpr => by
    obtain ⟨st1, h1, hca1, hprod1⟩ := resolveVal_subst fuel res x st hca
      (fun id hid => hpr id (by simp [handleIdsList, hid]))
    obtain ⟨st2, h2, hca2, hprod2⟩ := resolveValList_subst fuel res xs st1 hca1
      (fun id hid => by
        obtain ⟨p, hp, h⟩ := hpr id (by simp [handleIdsList, hid])
        exact ⟨p, by rw [hprod1]; exact hp, h⟩)
    refine ⟨st2, ?_, hca2, by rw [hprod2, hprod1]⟩
    rw [resolveValList]
    simp [h1, h2, substValList]

/-- Mapping version of `resolveVal_subst`. -/
theorem resolveValFields_subst (fuel : Nat) (res : Nat → Val) :
    ∀ (fs : List (String × Val)) (st : EngineState),
      cacheAgrees st res →
      producersResolveTo st res (handleIdsFields fs) →
      ∃ st', resolveValFields (fuel + 1) st fs = .ok (substValFields res fs, st') ∧
        cacheAgrees st' res ∧ st'.producers = st.producers
  | [], st, hca, _ => ⟨st, by rw [resolveValFields]; rfl, hca, rfl⟩
  | (k, v) :: fs, st, hca, hpr => by
    obtain ⟨st1, h1, hca1, hprod1⟩ := resolveVal_subst fuel res v st hca
      (fun id hid => hpr id (by simp [handleIdsFields, hid]))
    obtain ⟨st2, h2, hca2, hprod2⟩ := resolveValFields_subst fuel res fs st1 hca1
      (fun id hid => by
        obtain ⟨p, hp, h⟩ := hpr id (by simp [handleIdsFields, hid])
        exact ⟨p, by rw [hprod1]; exact hp, h⟩)
    refine ⟨st2, ?_, hca2, by rw [hprod2, hprod1]⟩
    rw [resolveValFields]
    simp [h1, h2, substValFields]

end

mutual

/-- Substituting handle-free results for every handle leaves no handle in
the value. -/
theorem substVal_handleFree (res : Nat → Val) :
    ∀ v : Val, (∀ id ∈ handleIds v, containsHandle (res id) = false) →
      containsHandle (substVal res v) = false
  | .str _, _ => rfl
  | .handle id, h => h id (by simp [handleIds])
  | .list xs, h => by
    rw [substVal, containsHandle]
    exact substValList_handleFree res xs (by simpa [handleIds] using h)
  | .vmap fs, h => by
    rw [substVal, containsHandle]
    exact substValFields_handleFree res fs (by simpa [handleIds] using h)

/-- Sequence version of `substVal_handleFree`. -/
theorem substValList_handleFree (res : Nat → Val) :
    ∀ xs : List Val, (∀ id ∈ handleIdsList xs, containsHandle (res id) = false) →
      containsHandleList (substValList res xs) = false
  | [], _ => rfl
  | x :: xs, h => by
    rw [substValList, containsHandleList]
    rw [substVal_handleFree res x (fun id hid => h id (by simp [handleIdsList, hid]))]
    rw [substValList_handleFree res xs (fun id hid => h id (by simp [handleIdsList, hid]))]
    rfl

/-- Mapping version of `substVal_handleFree`. -/
theorem substValFields_handleFree (res : Nat → Val) :
    ∀ fs : List (String × Val), (∀ id ∈ handleIdsFields fs, containsHandle (res id) = false) →
      containsHandleFields (substValFields res fs) = false
  | [], _ => rfl
  | (k, v) :: fs, h => by
    rw [substValFields, containsHandleFields]
    rw [substVal_handleFree res v (fun id hid => h id (by simp [handleIdsFields, hid]))]
    rw [substValFields_handleFree res fs (fun id hid => h id (by simp [handleIdsFields, hid]))]
    rfl

end

/- ### Theorems for the claims. -/

/-- C1: for nodes `a` and `b` in different deployment units with no prior
export between their units, both `addDependency(a, b)` and
`assertSameUnit(a, b)` raise ScopeViolationError, and the raised error
carries both node paths. -/
theorem claim_C1 (br : ScopeBroker) (a b : BrokerNode)
    (hp : a.path ≠ b.path) (hu : a.unitId ≠ b.unitId)
    (he : br.hasExportBetween a.unitId b.unitId = false) :
    br.addDependency a b
      = .error (.scopeViolation { pathA := a.path, pathB := b.path }) ∧
    br.assertSameUnit a b = .error { pathA := a.path, pathB := b.path } := by
  constructor
  · simp [ScopeBroker.addDependency, hp, hu, he]
  · simp [ScopeBroker.assertSameUnit, hu, he]

/-- Node of unit 1 used in the C1 witness. -/
def c1NodeA : BrokerNode := { path := "Unit1/A", unitId := 1 }

/-- Node of unit 2 used in the C1 witness. -/
def c1NodeB : BrokerNode := { path := "Unit2/B", unitId := 2 }

/-- Broker with no exports used in the C1 witness. -/
def c1Broker : ScopeBroker := { exports := [], edges := [] }

/-- C1 witness: concrete cross-unit pair with no export is rejected by both
operations with both paths in the error. -/
theorem claim_C1_witness :
    c1Broker.addDependency c1NodeA c1NodeB
      = .error (.scopeViolation { pathA := "Unit1/A", pathB := "Unit2/B" }) ∧
    c1Broker.assertSameUnit c1NodeA c1NodeB
      = .error { pathA := "Unit1/A", pathB := "Unit2/B" } :=
  claim_C1 c1Broker c1NodeA c1NodeB (by decide) (by decide) (by decide)

/-- C2: the first `resolve` of a fresh handle invokes the producer (logging
exactly one invocation) and caches the result; every subsequent `resolve`
of the same handle in the pass returns the identical result and leaves the
state — in particular the invocation log — unchanged, so the producer
fires at most once per pass. -/
theorem claim_C2 (fuel : Nat) (st : EngineState) (id : Nat) (p : Producer) (v : Val)
    (hc : st.cache id = none) (hp : st.producers id = some p)
    (hr : p.result = .ok v) (hf : containsHandle v = false) :
    resolveVal (fuel + 1) st (.handle id) = .ok (v, resolvedState st id v) ∧
    (resolvedState st id v).invoked = st.invoked ++ [id] ∧
    (resolvedState st id v).cache id = some v ∧
    ∀ g, resolveVal g (resolvedState st id v) (.handle id)
      = .ok (v, resolvedState st id v) := by
  refine ⟨?_, rfl, ?_, ?_⟩
  · rw [resolveVal]
    simp [hc, hp, hr]
    rw [resolveVal_handleFree fuel { st with invoked := st.invoked ++ [id] } v hf]
    rfl
  · simp [resolvedState, cacheInsert]
  · intro g
    rw [resolveVal]
    simp [resolvedState, cacheInsert]

/-- Engine state of the C2 witness: a single registered producer for handle
0 returning the literal "x", empty cache, empty invocation log. -/
def c2State : EngineState :=
  { producers := fun k => if k = 0 then some { nodePath := "A", result := .ok (.str "x") } else none
    cache := fun _ => none
    invoked := [] }

/-- C2 witness: resolving handle 0 twice on the concrete engine returns the
literal "x" both times, with a single logged invocation. -/
theorem claim_C2_witness :
    resolveVal 1 c2State (.handle 0) = .ok (.str "x", resolvedState c2State 0 (.str "x")) ∧
    (resolvedState c2State 0 (.str "x")).invoked = c2State.invoked ++ [0] ∧
    (resolvedState c2State 0 (.str "x")).cache 0 = some (.str "x") ∧
    ∀ g, resolveVal g (resolvedState c2State 0 (.str "x")) (.handle 0)
      = .ok (.str "x", resolvedState c2State 0 (.str "x")) :=
  claim_C2 0 c2State 0 { nodePath := "A", result := .ok (.str "x") } (.str "x")
    rfl rfl rfl rfl

/-- C3: resolving a composite value (nested sequence or mapping) containing
deferred-value handles proceeds recursively and returns the same structure
with every embedded handle replaced by its producer's result — exactly the
structure-preserving substitution `substVal` — with no handle identifiers
remaining in the resolved value. -/
theorem claim_C3 (fuel : Nat) (st : EngineState) (res : Nat → Val) (v : Val)
    (hca : cacheAgrees st res)
    (hpr : producersResolveTo st res (handleIds v)) :
    ∃ st', resolveVal (fuel + 1) st v = .ok (substVal res v, st') ∧
      containsHandle (substVal res v) = false := by
  obtain ⟨st', h1, _, _⟩ := resolveVal_subst fuel res v st hca hpr
  refine ⟨st', h1, ?_⟩
  apply substVal_handleFree
  intro id hid
  obtain ⟨p, _, _, hpf⟩ := hpr id hid
  exact hpf

/-- Producer results of the C3 witness: handle 0 yields "resultA", every
other handle yields "resultB". -/
def c3Res : Nat → Val := fun id => if id = 0 then .str "resultA" else .str "resultB"

/-- Engine state of the C3 witness: producers registered for handles 0 and
1, empty cache. -/
def c3State : EngineState :=
  { producers := fun id =>
      if id = 0 then some { nodePath := "A", result := .ok (.str "resultA") }
      else if id = 1 then some { nodePath := "B", result := .ok (.str "resultB") }
      else none
    cache := fun _ => none
    invoked := [] }

/-- Composite value of the C3 witness: a mapping holding a sequence of
handle A, a literal, and handle B. -/
def c3Val : Val := .vmap [("list", .list [.handle 0, .str "literal", .handle 1])]

/-- C3 witness: the concrete composite value resolves to the same structure
with both handles replaced and no handle remaining. -/
theorem claim_C3_witness :
    ∃ st', resolveVal 1 c3State c3Val = .ok (substVal c3Res c3Val, st') ∧
      containsHandle (substVal c3Res c3Val) = false :=
  claim_C3 0 c3State c3Res c3Val
    (by intro id w h; simp [c3State] at h)
    (by
      intro id hid
      simp [c3Val, handleIds, handleIdsFields, handleIdsList] at hid
      rcases hid with h | h
      · subst h
        exact ⟨{ nodePath := "A", result := .ok (.str "resultA") }, rfl, rfl, rfl⟩
      · subst h
        exact ⟨{ nodePath := "B", result := .ok (.str "resultB") }, rfl, rfl, rfl⟩)

/-- Modelled from the spec: a deferred value registered for synthesis,
tagged with the deployment unit it belongs to. -/
structure RegisteredValue where
  unitId : Nat
  val : Val

/-- Modelled from the spec: step 3 of the synthesizer — resolve every
registered deferred value in registration order; the first error aborts. -/
def resolveAll (fuel : Nat) (st : EngineState) :
    List RegisteredValue → Except ResolveErr (List (Nat × Val) × EngineState)
  | [] => .ok ([], st)
  | r :: rest =>
    match resolveVal fuel st r.val with
    | .error e => .error e
    | .ok (v, st') =>
      match resolveAll fuel st' rest with
      | .error e => .error e
      | .ok (vs, st'') => .ok ((r.unitId, v) :: vs, st'')

/-- Modelled from the spec: the value-resolution stage of the synthesis
pass — documents (per-unit resolved values) are produced only when every
registered value resolved; any error aborts the pass with no output. -/
def synthPass (fuel : Nat) (st : EngineState) (regs : List RegisteredValue) :
    Except ResolveErr (List (Nat × Val)) :=
  match resolveAll fuel st regs with
  | .error e => .error e
  | .ok (docs, _) => .ok docs

/-- Resolution of a concatenation first runs the prefix and continues from
its final engine state. -/
theorem resolveAll_append (fuel : Nat) (st : EngineState)
    (pre rest : List RegisteredValue) (vs : List (Nat × Val)) (st1 : EngineState)
    (h : resolveAll fuel st pre = .ok (vs, st1)) :
    resolveAll fuel st (pre ++ rest) =
      match resolveAll fuel st1 rest with
      | .error e => .error e
      | .ok (ws, st2) => .ok (vs ++ ws, st2) := by
  induction pre generalizing st vs with
  | nil =>
    rw [resolveAll] at h
    cases h
    cases hr : resolveAll fuel st1 rest with
    | error e => simp [hr]
    | ok out => simp [hr]
  | cons r pre ih =>
    rw [resolveAll] at h
    cases hv : resolveVal fuel st r.val with
    | error e => rw [hv] at h; simp at h
    | ok out =>
      obtain ⟨v, stm⟩ := out
      rw [hv] at h
      simp only at h
      cases hp : resolveAll fuel stm pre with
      | error e => rw [hp] at h; simp at h
      | ok outp =>
        obtain ⟨ws, stp⟩ := outp
        rw [hp] at h
        simp at h
        obtain ⟨hvs, hst⟩ := h
        subst hst
        rw [List.cons_append, resolveAll, hv]
        simp only
        rw [ih stm ws hp]
        cases hr : resolveAll fuel stp rest with
        | error e => simp [hr]
        | ok outr =>
          obtain ⟨wr, str⟩ := outr
          simp [hr, ← hvs]

/-- C6: if a registered producer raises an error during resolution, the
synthesis pass terminates with a ProducerError annotated with the path of
the node that registered the failing producer, and no document for any
unit is emitted. -/
theorem claim_C6 (fuel : Nat) (st : EngineState) (pre rest : List RegisteredValue)
    (u id : Nat) (p : Producer) (msg : String)
    (vs : List (Nat × Val)) (st1 : EngineState)
    (hpre : resolveAll (fuel + 1) st pre = .ok (vs, st1))
    (hc : st1.cache id = none) (hp : st1.producers id = some p)
    (hr : p.result = .error msg) :
    synthPass (fuel + 1) st (pre ++ { unitId := u, val := .handle id } :: rest)
      = .error (.producer p.nodePath msg) ∧
    ∀ docs, synthPass (fuel + 1) st (pre ++ { unitId := u, val := .handle id } :: rest)
      ≠ .ok docs := by
  have hfail : resolveVal (fuel + 1) st1 (.handle id)
      = .error (.producer p.nodePath msg) := by
    rw [resolveVal]
    simp [hc, hp, hr]
  have hmain : synthPass (fuel + 1) st (pre ++ { unitId := u, val := .handle id } :: rest)
      = .error (.producer p.nodePath msg) := by
    unfold synthPass
    rw [resolveAll_append (fuel + 1) st pre _ vs st1 hpre]
    rw [resolveAll]
    rw [hfail]
  exact ⟨hmain, by rw [hmain]; intro docs hdocs; cases hdocs⟩

/-- Engine state of the C6 witness: the only producer, registered by node
Unit1/Node, raises "boom". -/
def c6State : EngineState :=
  { producers := fun k =>
      if k = 0 then some { nodePath := "Unit1/Node", result := .error "boom" } else none
    cache := fun _ => none
    invoked := [] }

/-- C6 witness: the concrete pass aborts with ProducerError naming the
registering node, emitting nothing. -/
theorem claim_C6_witness :
    synthPass 1 c6State ([] ++ { unitId := 1, val := .handle 0 } :: [])
      = .error (.producer "Unit1/Node" "boom") ∧
    ∀ docs, synthPass 1 c6State ([] ++ { unitId := 1, val := .handle 0 } :: [])
      ≠ .ok docs :=
  claim_C6 0 c6State [] [] 1 0 { nodePath := "Unit1/Node", result := .error "boom" }
    "boom" [] c6State rfl rfl rfl rfl

/-- Modelled from the spec: error raised when the unit-level dependency
graph contains a cycle. -/
inductive ConfigurationError where
  | unitCycle
deriving Repr, DecidableEq

/-- Modelled from the spec: a unit `u` is ready for emission when every
unit it depends on (an edge `(u, v)` reads: `u` depends on `v`) is already
emitted. -/
def isReady (emitted : List Nat) (edges : List (Nat × Nat)) (u : Nat) : Bool :=
  edges.all fun e => e.1 != u || decide (e.2 ∈ emitted)

/-- Modelled from the spec: topological sort of the unit-level graph —
repeatedly emit some unit whose dependencies are all emitted; if none is
ready the graph is cyclic and ConfigurationError is raised. -/
def topoLoop (edges : List (Nat × Nat)) :
    Nat → List Nat → List Nat → Except ConfigurationError (List Nat)
  | _, emitted, [] => .ok emitted
  | 0, _, _ => .error .unitCycle
  | fuel + 1, emitted, remaining =>
    match remaining.find? (isReady emitted edges) with
    | none => .error .unitCycle
    | some u => topoLoop edges fuel (emitted ++ [u]) (remaining.erase u)

/-- Modelled from the spec: the unit emission order determined by a
topological sort of the unit-level graph. -/
def topoSort (units : List Nat) (edges : List (Nat × Nat)) :
    Except ConfigurationError (List Nat) :=
  topoLoop edges units.length [] units

/-- A list respects the unit-level edges when, for every edge `(a, b)`
(`a` depends on `b`) with `a` in the list, `b` is in the list at a
strictly earlier position. -/
def edgeOrdered (edges : List (Nat × Nat)) (l : List Nat) : Prop :=
  ∀ a b, (a, b) ∈ edges → a ∈ l → b ∈ l ∧ l.indexOf b < l.indexOf a

/-- Soundness of the emission loop: from a duplicate-free worklist and an
already-ordered emitted prefix, a successful run emits every unit and the
result respects every edge. -/
theorem topoLoop_sound (edges : List (Nat × Nat)) :
    ∀ (fuel : Nat) (emitted remaining order : List Nat),
      (emitted ++ remaining).Nodup →
      edgeOrdered edges emitted →
      topoLoop edges fuel emitted remaining = .ok order →
      (∀ x, x ∈ emitted ++ remaining → x ∈ order) ∧ edgeOrdered edges order := by
  intro fuel
  induction fuel with
  | zero =>
    intro emitted remaining order hnd hord h
    cases remaining with
    | nil =>
      rw [topoLoop] at h
      simp only [Except.ok.injEq] at h
      subst h
      exact ⟨fun x hx => by simpa using hx, hord⟩
    | cons r rem =>
      rw [topoLoop] at h
      · cases h
      · simp
  | succ fuel ih =>
    intro emitted remaining order hnd hord h
    cases remaining with
    | nil =>
      rw [topoLoop] at h
      simp only [Except.ok.injEq] at h
      subst h
      exact ⟨fun x hx => by simpa using hx, hord⟩
    | cons r rem =>
      rw [topoLoop] at h
      case x_3 => simp
      cases hf : (r :: rem).find? (isReady emitted edges) with
      | none => rw [hf] at h; cases h
      | some u =>
        rw [hf] at h
        simp only at h
        have hu_mem : u ∈ r :: rem := List.mem_of_find?_eq_some hf
        have hu_ready : isReady emitted edges u = true := List.find?_some hf
        have hu_notin : u ∉ emitted := fun hin =>
          (List.disjoint_of_nodup_append hnd) hin hu_mem
        have hperm : List.Perm (emitted ++ r :: rem) ((emitted ++ [u]) ++ (r :: rem).erase u) := by
          rw [List.append_assoc]
          exact List.Perm.append_left emitted (List.perm_cons_erase hu_mem)
        have hnd' : ((emitted ++ [u]) ++ (r :: rem).erase u).Nodup :=
          hperm.nodup_iff.mp hnd
        have hord' : edgeOrdered edges (emitted ++ [u]) := by
          intro a b hab ha
          rcases List.mem_append.mp ha with ha' | ha'
          · obtain ⟨hb, hlt⟩ := hord a b hab ha'
            refine ⟨List.mem_append_left _ hb, ?_⟩
            rw [List.indexOf_append_of_mem hb, List.indexOf_append_of_mem ha']
            exact hlt
          · have hau : a = u := by simpa using ha'
            subst hau
            have hb : b ∈ emitted := by
              have hall := List.all_eq_true.mp hu_ready (a, b) hab
              simp at hall
              exact hall
            refine ⟨List.mem_append_left _ hb, ?_⟩
            rw [List.indexOf_append_of_mem hb,
              List.indexOf_append_of_not_mem hu_notin]
            simp [List.indexOf_cons_self]
            exact List.indexOf_lt_length.mpr hb
        obtain ⟨hmem, hordo⟩ := ih (emitted ++ [u]) ((r :: rem).erase u) order hnd' hord' h
        refine ⟨fun x hx => hmem x (hperm.mem_iff.mp hx), hordo⟩

/-- Transitive lift of `edgeOrdered`: along any dependency chain the index
strictly decreases. -/
theorem edgeOrdered_transGen (edges : List (Nat × Nat)) (order : List Nat)
    (hord : edgeOrdered edges order) (u1 u2 : Nat)
    (hdep : Relation.TransGen (fun a b => (a, b) ∈ edges) u1 u2) :
    u1 ∈ order → u2 ∈ order ∧ order.indexOf u2 < order.indexOf u1 := by
  induction hdep with
  | single hab => intro h1; exact hord _ _ hab h1
  | tail _ hbc ihd =>
    intro h1
    obtain ⟨h2, h12⟩ := ihd h1
    obtain ⟨h3, h23⟩ := hord _ _ hbc h2
    exact ⟨h3, Nat.lt_trans h23 h12⟩

/-- C4: whenever unit `u1` depends on unit `u2` directly or transitively,
the emission order produced by the synthesis pass places `u2` strictly
before `u1`. -/
theorem claim_C4 (units : List Nat) (edges : List (Nat × Nat)) (order : List Nat)
    (hnd : units.Nodup)
    (hE : ∀ e ∈ edges, e.1 ∈ units ∧ e.2 ∈ units)
    (hok : topoSort units edges = .ok order)
    (u1 u2 : Nat)
    (hdep : Relation.TransGen (fun a b => (a, b) ∈ edges) u1 u2) :
    u1 ∈ order ∧ u2 ∈ order ∧ order.indexOf u2 < order.indexOf u1 := by
  obtain ⟨hmem, hord⟩ := topoLoop_sound edges units.length [] units order
    (by simpa using hnd) (fun a b _ hab => by cases hab) hok
  have h1e : ∃ x, (u1, x) ∈ edges := by
    induction hdep with
    | single hab => exact ⟨_, hab⟩
    | tail _ _ ihd => exact ihd
  obtain ⟨x, h1x⟩ := h1e
  have h1 : u1 ∈ order := hmem u1 (by simpa using (hE _ h1x).1)
  obtain ⟨h2, hlt⟩ := edgeOrdered_transGen edges order hord u1 u2 hdep h1
  exact ⟨h1, h2, hlt⟩

/-- Units of the C4 witness: three units in reverse dependency order. -/
def c4Units : List Nat := [1, 2, 3]

/-- Edges of the C4 witness: unit 1 depends on unit 2, unit 2 on unit 3. -/
def c4Edges : List (Nat × Nat) := [(1, 2), (2, 3)]

/-- C4 witness: on the concrete three-unit chain the sort places unit 3
before unit 1. -/
theorem claim_C4_witness :
    1 ∈ [3, 2, 1] ∧ 3 ∈ [3, 2, 1] ∧
      List.indexOf 3 [3, 2, 1] < List.indexOf 1 [3, 2, 1] := by
  have h12 : (1, 2) ∈ c4Edges := by decide
  have h23 : (2, 3) ∈ c4Edges := by decide
  exact claim_C4 c4Units c4Edges [3, 2, 1] (by decide) (by decide) rfl 1 3
    (Relation.TransGen.tail (Relation.TransGen.single h12) h23)

/-- C9: the `AwsAuth` constructor raises `ValidationError` exactly when the
cluster's authenticationMode is API; for every other value (undefined,
CONFIG_MAP, API_AND_CONFIG_MAP) construction succeeds and creates the
aws-auth ConfigMap manifest. -/
theorem claim_C9 (selfNode : ConstructRef) (cluster : Cluster) :
    ((∃ e, AwsAuth.construct selfNode cluster = .error e) ↔
      cluster.authenticationMode = some AuthenticationMode.API) ∧
    (cluster.authenticationMode ≠ some AuthenticationMode.API →
      AwsAuth.construct selfNode cluster
        = .ok { auth := awsAuthInitialState selfNode, manifest := awsAuthManifest } ∧
      awsAuthManifest.kind = "ConfigMap" ∧
      awsAuthManifest.metadataName = "aws-auth" ∧
      awsAuthManifest.metadataNamespace = "kube-system") := by
  constructor
  · constructor
    · rintro ⟨e, he⟩
      by_contra hne
      simp [AwsAuth.construct, supportConfigMap, hne] at he
    · intro h
      refine ⟨{ message := "ConfigMap not supported in the AuthenticationMode"
                scopePath := selfNode.path }, ?_⟩
      simp [AwsAuth.construct, supportConfigMap, h]
  · intro h
    exact ⟨by simp [AwsAuth.construct, supportConfigMap, h], rfl, rfl, rfl⟩

/-- Construct node used in the C9 witness. -/
def c9Node : ConstructRef :=
  { path := "Cluster/AwsAuth", stack := { stackId := 0, stackName := "TestStack" } }

/-- C9 witness: with an undefined authenticationMode, construction succeeds
and yields the aws-auth ConfigMap manifest. -/
theorem claim_C9_witness :
    AwsAuth.construct c9Node { authenticationMode := none }
      = .ok { auth := awsAuthInitialState c9Node, manifest := awsAuthManifest } ∧
    awsAuthManifest.kind = "ConfigMap" ∧
    awsAuthManifest.metadataName = "aws-auth" ∧
    awsAuthManifest.metadataNamespace = "kube-system" :=
  (claim_C9 c9Node { authenticationMode := none }).2 (by decide)

/-- C10: every role added via `addMastersRole(role, username)` yields, in
the array built by `synthesizeMapRoles`, an entry whose rolearn is the
role's ARN, whose groups are exactly `system:masters`, and whose username
is the supplied one when given and the role ARN otherwise. -/
theorem claim_C10 (self : AwsAuth) (role : IRole) (username : Option String)
    (self' : AwsAuth) (h : self.addMastersRole role username = .ok self') :
    { rolearn := role.roleArn
      username := username.getD role.roleArn
      groups := ["system:masters"] } ∈ self'.synthesizeMapRolesList := by
  unfold AwsAuth.addMastersRole AwsAuth.addRoleMapping at h
  cases hs : self.assertSameStack role.node with
  | some e => rw [hs] at h; cases h
  | none =>
    rw [hs] at h
    simp only [Except.ok.injEq] at h
    subst h
    simp [AwsAuth.synthesizeMapRolesList]

/-- Stack used in the C10 witness. -/
def c10Stack : Stack := { stackId := 0, stackName := "TestStack" }

/-- `AwsAuth` state used in the C10 witness. -/
def c10Auth : AwsAuth :=
  { selfNode := { path := "Cluster/AwsAuth", stack := c10Stack }
    stack := c10Stack
    roleMappings := []
    userMappings := []
    accounts := [] }

/-- Role used in the C10 witness; it lives in the same stack. -/
def c10Role : IRole :=
  { roleArn := "arn:aws:iam::1234:role/Admin"
    node := { path := "Admin", stack := c10Stack } }

/-- `AwsAuth` state after adding the witness role as a masters role. -/
def c10AuthAdded : AwsAuth :=
  { c10Auth with
    roleMappings := [(c10Role, { username := none, groups := ["system:masters"] })] }

/-- C10 witness: the concrete role added with no username appears in the
synthesized mapRoles array under its own ARN as username. -/
theorem claim_C10_witness :
    { rolearn := "arn:aws:iam::1234:role/Admin"
      username := "arn:aws:iam::1234:role/Admin"
      groups := ["system:masters"] } ∈ c10AuthAdded.synthesizeMapRolesList :=
  claim_C10 c10Auth c10Role none c10AuthAdded (by rfl)

/- ### Part 4: document emission. -/

/-- Modelled from the spec: one emitted entry of a document — the ordered,
de-duplicated list of predecessor identifiers attached to a resource. -/
structure EmittedResource where
  logicalId : String
  dependsOn : List String
deriving Repr, DecidableEq

/-- Modelled from the spec: per-unit document emission — documents appear
only after a successful topological sort of the unit-level graph; a cycle
aborts with ConfigurationError before any document is produced. -/
def synthesizeUnits (units : List Nat) (edges : List (Nat × Nat))
    (docFor : Nat → List (String × EmittedResource)) :
    Except ConfigurationError (List (Nat × List (String × EmittedResource))) :=
  match topoSort units edges with
  | .error e => .error e
  | .ok order => .ok (order.map fun u => (u, docFor u))

/-- C5: a cycle in the unit-level dependency graph makes the synthesis pass
raise ConfigurationError, and no document is emitted for any unit. -/
theorem claim_C5 (units : List Nat) (edges : List (Nat × Nat))
    (docFor : Nat → List (String × EmittedResource))
    (hnd : units.Nodup) (hE : ∀ e ∈ edges, e.1 ∈ units ∧ e.2 ∈ units)
    (u : Nat) (hcyc : Relation.TransGen (fun a b => (a, b) ∈ edges) u u) :
    synthesizeUnits units edges docFor = .error .unitCycle ∧
    ∀ docs, synthesizeUnits units edges docFor ≠ .ok docs := by
  have hu_units : u ∈ units := by
    cases hcyc with
    | single hab => exact (hE _ hab).1
    | tail _ hbc => exact (hE _ hbc).2
  have hts : ∀ order, topoSort units edges ≠ .ok order := by
    intro order hok
    obtain ⟨hmem, hord⟩ := topoLoop_sound edges units.length [] units order
      (by simpa using hnd) (fun a b _ hab => by cases hab) hok
    have hu : u ∈ order := hmem u (by simpa using hu_units)
    obtain ⟨_, hlt⟩ := edgeOrdered_transGen edges order hord u u hcyc hu
    exact Nat.lt_irrefl _ hlt
  cases hts2 : topoSort units edges with
  | error e =>
    cases e
    exact ⟨by simp [synthesizeUnits, hts2], fun docs => by simp [synthesizeUnits, hts2]⟩
  | ok order => exact absurd hts2 (hts order)

/-- Edges of the C5 witness: units 1 and 2 each consume an export of the
other, a unit-level cycle. -/
def c5Edges : List (Nat × Nat) := [(1, 2), (2, 1)]

/-- C5 witness: the concrete two-unit cycle aborts with ConfigurationError
and emits nothing. -/
theorem claim_C5_witness :
    synthesizeUnits [1, 2] c5Edges (fun _ => []) = .error .unitCycle ∧
    ∀ docs, synthesizeUnits [1, 2] c5Edges (fun _ => []) ≠ .ok docs := by
  have h12 : (1, 2) ∈ c5Edges := by decide
  have h21 : (2, 1) ∈ c5Edges := by decide
  exact claim_C5 [1, 2] c5Edges (fun _ => []) (by decide) (by decide) 1
    (Relation.TransGen.tail (Relation.TransGen.single h12) h21)

/-- Modelled from the spec: a declared resource — its identifier and the
node-level dependency edges accumulated for it, in accumulation order,
possibly with duplicates. -/
structure ResourceDecl where
  logicalId : String
  dependencyEdges : List String
deriving Repr, DecidableEq

/-- Modelled from the spec: a deployment unit — an identity and an ordered
sequence of resource entries (insertion order preserved). -/
structure DeployUnit where
  unitId : Nat
  resources : List ResourceDecl
deriving Repr, DecidableEq

/-- Appends an identifier to the accumulator unless already present. -/
def dedupAdd (acc : List String) (x : String) : List String :=
  if x ∈ acc then acc else acc ++ [x]

/-- Modelled from the spec: accumulated node-level edges become an ordered,
de-duplicated predecessor list (first-occurrence order). -/
def buildDependsOn (es : List String) : List String :=
  es.foldl dedupAdd []

/-- Modelled from the spec: the document entry emitted for one resource,
carrying its predecessor list. -/
def emitResource (r : ResourceDecl) : EmittedResource :=
  { logicalId := r.logicalId, dependsOn := buildDependsOn r.dependencyEdges }

/-- Modelled from the spec: the serialized document of a unit — one entry
per resource, in declaration order. -/
def emitDocument (u : DeployUnit) : List (String × EmittedResource) :=
  u.resources.map fun r => (r.logicalId, emitResource r)

/-- The dedup fold preserves freedom from duplicates. -/
theorem foldl_dedupAdd_nodup :
    ∀ (es acc : List String), acc.Nodup → (es.foldl dedupAdd acc).Nodup
  | [], _, h => h
  | e :: es, acc, h => by
    rw [List.foldl_cons]
    apply foldl_dedupAdd_nodup es
    by_cases hx : e ∈ acc
    · have hd : dedupAdd acc e = acc := by simp [dedupAdd, hx]
      rw [hd]
      exact h
    · simp [dedupAdd, hx, List.nodup_append, h]

/-- The dedup fold keeps first occurrences in the original order. -/
theorem foldl_dedupAdd_sublist :
    ∀ (es acc : List String), List.Sublist (es.foldl dedupAdd acc) (acc ++ es)
  | [], acc => by simp
  | e :: es, acc => by
    rw [List.foldl_cons]
    refine (foldl_dedupAdd_sublist es (dedupAdd acc e)).trans ?_
    by_cases hx : e ∈ acc
    · have hd : dedupAdd acc e = acc := by simp [dedupAdd, hx]
      rw [hd]
      exact (List.sublist_cons_self e es).append_left acc
    · have hd : dedupAdd acc e = acc ++ [e] := by simp [dedupAdd, hx]
      rw [hd, List.append_assoc]
      exact List.Sublist.refl _

/-- The dedup fold loses no identifier and invents none. -/
theorem foldl_dedupAdd_mem :
    ∀ (es acc : List String) (x : String),
      x ∈ es.foldl dedupAdd acc ↔ x ∈ acc ∨ x ∈ es
  | [], acc, x => by simp
  | e :: es, acc, x => by
    rw [List.foldl_cons, foldl_dedupAdd_mem es (dedupAdd acc e) x]
    by_cases hx : e ∈ acc
    · have hd : dedupAdd acc e = acc := by simp [dedupAdd, hx]
      rw [hd]
      constructor
      · rintro (h | h)
        · exact Or.inl h
        · exact Or.inr (List.mem_cons_of_mem _ h)
      · rintro (h | h)
        · exact Or.inl h
        · rcases List.mem_cons.mp h with h | h
          · subst h; exact Or.inl hx
          · exact Or.inr h
    · have hd : dedupAdd acc e = acc ++ [e] := by simp [dedupAdd, hx]
      rw [hd]
      simp [List.mem_append, List.mem_cons, or_assoc]

/-- C7: for every resource of a deployment unit, the accumulated node-level
edges become the predecessor list attached to that resource's entry in the
final document, and that list is ordered (a sublist of the accumulation
order, so first occurrences keep their relative order), duplicate-free, and
carries exactly the accumulated identifiers. -/
theorem claim_C7 (u : DeployUnit) (r : ResourceDecl) (hr : r ∈ u.resources) :
    (r.logicalId, emitResource r) ∈ emitDocument u ∧
    (emitResource r).dependsOn.Nodup ∧
    List.Sublist (emitResource r).dependsOn r.dependencyEdges ∧
    (∀ x, x ∈ (emitResource r).dependsOn ↔ x ∈ r.dependencyEdges) := by
  refine ⟨?_, ?_, ?_, ?_⟩
  · exact List.mem_map_of_mem _ hr
  · exact foldl_dedupAdd_nodup r.dependencyEdges [] List.nodup_nil
  · simpa [emitResource, buildDependsOn] using
      foldl_dedupAdd_sublist r.dependencyEdges []
  · intro x
    simpa [emitResource, buildDependsOn] using
      foldl_dedupAdd_mem r.dependencyEdges [] x

/-- Resource of the C7 witness, declared with a duplicated dependency. -/
def c7Res : ResourceDecl :=
  { logicalId := "BucketNotifications", dependencyEdges := ["Dependent", "Dependent"] }

/-- Deployment unit of the C7 witness. -/
def c7Unit : DeployUnit := { unitId := 0, resources := [c7Res] }

/-- C7 witness: the concrete resource's entry appears in the document with
an ordered, de-duplicated predecessor list over the same identifiers. -/
theorem claim_C7_witness :
    (c7Res.logicalId, emitResource c7Res) ∈ emitDocument c7Unit ∧
    (emitResource c7Res).dependsOn.Nodup ∧
    List.Sublist (emitResource c7Res).dependsOn c7Res.dependencyEdges ∧
    (∀ x, x ∈ (emitResource c7Res).dependsOn ↔ x ∈ c7Res.dependencyEdges) :=
  claim_C7 c7Unit c7Res (by simp [c7Unit])

/-- Deployment unit of the C8 sample: two resources declared in an order
that is not alphabetical. -/
def c8Unit : DeployUnit :=
  { unitId := 0
    resources := [{ logicalId := "ZTopic", dependencyEdges := [] },
      { logicalId := "ABucket", dependencyEdges := [] }] }

/-- C8: every emitted document lists resource entries in declaration order
(insertion order preserved), and the key order is not an alphabetical
sort — witnessed by a unit whose declaration order is non-alphabetical and
survives emission unsorted. -/
theorem claim_C8 :
    (∀ u : DeployUnit,
      (emitDocument u).map Prod.fst = u.resources.map ResourceDecl.logicalId) ∧
    (emitDocument c8Unit).map Prod.fst = ["ZTopic", "ABucket"] ∧
    ¬ List.Sorted (· ≤ ·) ((emitDocument c8Unit).map Prod.fst) := by
  refine ⟨?_, rfl, ?_⟩
  · intro u
    simp [emitDocument]
  · intro hs
    have hs' : List.Sorted (· ≤ ·) ["ZTopic", "ABucket"] := hs
    have h : ("ZTopic" : String) ≤ "ABucket" :=
      List.rel_of_sorted_cons hs' "ABucket" (by simp)
    rw [String.le_iff_toList_le] at h
    revert h
    decide

end Spec2Proof
